import Mathlib

/-!
Shallow embedding of the ConeCylinderInjection injection model
(src/lagrangian/intermediate/submodels/Kinematic/InjectionModel/
ConeCylinderInjection/ConeCylinderInjection.H).  The header declares the
data members, the two enumerations, and the member functions; the bodies
of the member functions live in ConeCylinderInjection.C, which is not part
of the sources, so they are modelled from the specification (each such
definition carries a doc comment saying so).  Scalars are modelled as real
numbers.
-/

namespace ConeCylinderInjection

open Classical

/-- Three-component vector of scalars, the `vector` type of the source. -/
@[ext]
structure Vec3 where
  x : ℝ
  y : ℝ
  z : ℝ

instance : Zero Vec3 := ⟨⟨0, 0, 0⟩⟩

instance : Add Vec3 := ⟨fun a b => ⟨a.x + b.x, a.y + b.y, a.z + b.z⟩⟩

instance : Sub Vec3 := ⟨fun a b => ⟨a.x - b.x, a.y - b.y, a.z - b.z⟩⟩

instance : SMul ℝ Vec3 := ⟨fun c a => ⟨c * a.x, c * a.y, c * a.z⟩⟩

/-- Inner (dot) product of two vectors. -/
def Vec3.dot (a b : Vec3) : ℝ := a.x * b.x + a.y * b.y + a.z * b.z

/-- Cross product of two vectors. -/
def Vec3.cross (a b : Vec3) : Vec3 :=
  ⟨a.y * b.z - a.z * b.y, a.z * b.x - a.x * b.z, a.x * b.y - a.y * b.x⟩

/-- Euclidean norm of a vector. -/
noncomputable def Vec3.norm (a : Vec3) : ℝ := Real.sqrt (a.dot a)

/-- The `injectionMethod` enumeration of the header (point / disc / cylinder). -/
inductive injectionMethod
  | imPoint
  | imDisc
  | imCylinder
deriving DecidableEq

/-- The `flowType` enumeration of the header. -/
inductive flowType
  | ftConstantVelocity
  | ftPressureDrivenVelocity
  | ftFlowRateAndDischarge
deriving DecidableEq

/-- The private data of `ConeCylinderInjection`, as declared in the header.
Time functions (`TimeFunction1`) are modelled as functions of the time
instant; labels are modelled as integers, the parcels-per-second count as a
natural number.  The size-distribution collaborator is external and kept
out of the record. -/
structure Model where
  injectionMethod_ : injectionMethod
  flowType_ : flowType
  position_ : ℝ → Vec3
  positionIsConstant_ : Bool
  direction_ : ℝ → Vec3
  injectorCell_ : ℤ
  injectorTetFace_ : ℤ
  injectorTetPt_ : ℤ
  SOI_ : ℝ
  duration_ : ℝ
  parcelsPerSecond_ : ℕ
  flowRateProfile_ : ℝ → ℝ
  thetaInner_ : ℝ → ℝ
  thetaOuter_ : ℝ → ℝ
  dInner_ : ℝ
  dOuter_ : ℝ
  dInnerCylinder_ : ℝ
  dOuterCylinder_ : ℝ
  hCylinder_ : ℝ
  offsetCylinder_ : ℝ
  Umag_ : ℝ → ℝ
  Cd_ : ℝ → ℝ
  Pinj_ : ℝ → ℝ

/-- Degrees-to-radians conversion used for the half-cone angles. -/
noncomputable def degToRad (x : ℝ) : ℝ := x / 180 * Real.pi

/-- Normalization of a vector (the source normalizes the injection
direction before building the local basis). -/
noncomputable def normalize (v : Vec3) : Vec3 := (1 / Vec3.norm v) • v

/-- Modelled from the spec: a deterministic vector orthogonal to `v`
(ConeCylinderInjection.C is absent from the sources; the spec only
requires a deterministic choice of a perpendicular, ties broken by a fixed
reference axis when the direction is parallel to it). -/
noncomputable def perpendicularRaw (v : Vec3) : Vec3 :=
  if v.x = 0 ∧ v.y = 0 then ⟨1, 0, 0⟩ else ⟨-v.y, v.x, 0⟩

/-- First tangential basis vector orthogonal to the axis `n`. -/
noncomputable def e1 (n : Vec3) : Vec3 := normalize (perpendicularRaw n)

/-- Second tangential basis vector, completing the orthonormal triple. -/
noncomputable def e2 (n : Vec3) : Vec3 := Vec3.cross n (e1 n)

/-- Normalized injector axis at time `t`. -/
noncomputable def injectionAxis (m : Model) (t : ℝ) : Vec3 :=
  normalize (m.direction_ t)

/-- Inner half-cone angle at time `t`, converted to radians. -/
noncomputable def thetaInnerRad (m : Model) (t : ℝ) : ℝ :=
  degToRad (m.thetaInner_ t)

/-- Outer half-cone angle at time `t`, converted to radians. -/
noncomputable def thetaOuterRad (m : Model) (t : ℝ) : ℝ :=
  degToRad (m.thetaOuter_ t)

/-- Modelled from the spec: the cosine of the sampled cone angle is drawn
uniformly between the cosine of the outer angle and the cosine of the
inner angle (uniform per unit solid angle), `u` being the uniform draw in
the unit interval. -/
noncomputable def sampleCosTheta (tIn tOut u : ℝ) : ℝ :=
  Real.cos tOut + u * (Real.cos tIn - Real.cos tOut)

/-- Modelled from the spec: the sampled cone angle, recovered from its
uniformly drawn cosine. -/
noncomputable def sampleConeAngle (tIn tOut u : ℝ) : ℝ :=
  Real.arccos (sampleCosTheta tIn tOut u)

/-- Cone angle sampled by the model at time `t` from the draw `u`. -/
noncomputable def coneAngleAt (m : Model) (t u : ℝ) : ℝ :=
  sampleConeAngle (thetaInnerRad m t) (thetaOuterRad m t) u

/-- Modelled from the spec: the unit vector in the tangential plane at
azimuth `2 pi uphi`, `uphi` being the uniform azimuthal draw. -/
noncomputable def tanVecAt (m : Model) (t uphi : ℝ) : Vec3 :=
  Real.cos (2 * Real.pi * uphi) • e1 (injectionAxis m t) +
    Real.sin (2 * Real.pi * uphi) • e2 (injectionAxis m t)

/-- Modelled from the spec: the sampled parcel direction, the normalized
axis tilted by the sampled cone angle towards the azimuthal tangent. -/
noncomputable def sampleDirection (m : Model) (t uphi utheta : ℝ) : Vec3 :=
  Real.cos (coneAngleAt m t utheta) • injectionAxis m t +
    Real.sin (coneAngleAt m t utheta) • tanVecAt m t uphi

/-- Modelled from the spec: annulus radius drawn uniformly per unit area,
between the inner radius `rI` and the outer radius `rO`, from the uniform
draw `u`. -/
noncomputable def discRadius (rI rO u : ℝ) : ℝ :=
  Real.sqrt (rI ^ 2 + u * (rO ^ 2 - rI ^ 2))

/-- Modelled from the spec: the sampled absolute position.  A point
injector returns the injector position itself; a disc adds the radial
offset in the tangential plane; a cylinder additionally adds the axial
offset along the axis.  `u1` is the azimuthal draw, `u2` the radial draw,
`u3` the axial draw. -/
noncomputable def samplePosition (m : Model) (t u1 u2 u3 : ℝ) : Vec3 :=
  match m.injectionMethod_ with
  | injectionMethod.imPoint => m.position_ t
  | injectionMethod.imDisc =>
      m.position_ t +
        discRadius (m.dInner_ / 2) (m.dOuter_ / 2) u2 • tanVecAt m t u1
  | injectionMethod.imCylinder =>
      m.position_ t +
        discRadius (m.dInnerCylinder_ / 2) (m.dOuterCylinder_ / 2) u2 •
          tanVecAt m t u1 +
        (m.offsetCylinder_ + u3 * m.hCylinder_) • injectionAxis m t

/-- The external mesh-location collaborator: resolves a point to a cell /
tet-face / tet-point address, or fails. -/
structure MeshLocation where
  locate : Vec3 → Option (ℕ × ℕ × ℕ)

/-- Result of one geometry sample: the position handed back by
`setPositionAndCell` together with the resolved mesh address (negative
labels when resolution failed). -/
structure GeomSample where
  position : Vec3
  cellOwner : ℤ
  tetFacei : ℤ
  tetPti : ℤ

/-- Modelled from the spec: `setPositionAndCell` samples the position and
delegates to the mesh-location collaborator; on a miss the parcel is
marked with negative labels instead of raising a fatal error. -/
noncomputable def setPositionAndCell (m : Model) (mesh : MeshLocation)
    (t u1 u2 u3 : ℝ) : GeomSample :=
  let pos := samplePosition m t u1 u2 u3
  match mesh.locate pos with
  | some (c, f, p) => ⟨pos, (c : ℤ), (f : ℤ), (p : ℤ)⟩
  | none => ⟨pos, -1, -1, -1⟩

/-- Modelled from the spec: `validInjection` permits a parcel exactly when
its most recent geometry sample resolved to a mesh cell. -/
def validInjection (s : GeomSample) : Bool := decide (0 ≤ s.cellOwner)

/-- Modelled from the spec: pressure-driven injection speed, with a
non-positive radicand clamped to zero. -/
noncomputable def pressureDrivenSpeed (m : Model) (t p rho : ℝ) : ℝ :=
  Real.sqrt (max 0 (2 * (m.Pinj_ t - p) / rho))

/-- Modelled from the spec: flow-rate-and-discharge injection speed. -/
noncomputable def flowRateDischargeSpeed (m : Model) (t rho A mdot : ℝ) : ℝ :=
  mdot / (rho * A * m.Cd_ t)

/-- Modelled from the spec: the scalar injection speed selected by the
flow type; `p` is the local pressure, `rho` the density, `A` the
cross-sectional area and `mdot` the mass flow rate supplied by the
context. -/
noncomputable def injectionSpeed (m : Model) (t p rho A mdot : ℝ) : ℝ :=
  match m.flowType_ with
  | flowType.ftConstantVelocity => m.Umag_ t
  | flowType.ftPressureDrivenVelocity => pressureDrivenSpeed m t p rho
  | flowType.ftFlowRateAndDischarge => flowRateDischargeSpeed m t rho A mdot

/-- Configuration errors raised once at model setup. -/
inductive configError
  | nonPositiveArea
deriving DecidableEq

/-- Modelled from the spec: the one-time setup check on the
cross-sectional area under the flow-rate-and-discharge flow type; a
non-positive area is a fatal configuration error. -/
noncomputable def checkFlowArea (A : ℝ) : Except configError Unit :=
  if 0 < A then Except.ok () else Except.error configError.nonPositiveArea

/-- Overlap length of the scheduling window with the active injection
window from start-of-injection to start-of-injection plus duration. -/
noncomputable def overlapDuration (m : Model) (t0 t1 : ℝ) : ℝ :=
  max 0 (min t1 (m.SOI_ + m.duration_) - max t0 m.SOI_)

/-- Modelled from the spec: number of parcels to introduce in the window,
computed from the parcels-per-second rate and the overlap with the active
window. -/
noncomputable def parcelsToInject (m : Model) (t0 t1 : ℝ) : ℤ :=
  ⌊(m.parcelsPerSecond_ : ℝ) * overlapDuration m t0 t1⌋

/-- One complete parcel sample: position, direction, speed and the
diameter drawn from the external size distribution. -/
structure ParcelSample where
  position : Vec3
  direction : Vec3
  speed : ℝ
  diameter : ℝ

/-- Modelled from the spec: the full two-phase generation of one parcel,
consuming five draws of the serialized random stream at indices determined
by the parcel index `i` (azimuth, radial, axial, cone-angle, size), so
that the stream is consumed in a fixed, reproducible per-parcel-index
order.  `dist` is the external size-distribution sampler. -/
noncomputable def generateParcel (m : Model) (dist : ℝ → ℝ)
    (p rho A mdot : ℝ) (stream : ℕ → ℝ) (i : ℕ) (t : ℝ) : ParcelSample :=
  { position :=
      samplePosition m t (stream (5 * i)) (stream (5 * i + 1))
        (stream (5 * i + 2))
    direction := sampleDirection m t (stream (5 * i)) (stream (5 * i + 3))
    speed := injectionSpeed m t p rho A mdot
    diameter := dist (stream (5 * i + 4)) }

/-- Modelled from the spec: a whole injection run, one parcel per
requested (parcel index, time) pair, all drawing from one serialized
random stream. -/
noncomputable def runInjection (m : Model) (dist : ℝ → ℝ)
    (p rho A mdot : ℝ) (stream : ℕ → ℝ) (parcels : List (ℕ × ℝ)) :
    List ParcelSample :=
  parcels.map (fun q => generateParcel m dist p rho A mdot stream q.1 q.2)

/-- Modelled from the spec: the copy constructor declared in the header
copies every data member of the model. -/
noncomputable def copyConstruct (im : Model) : Model :=
  { injectionMethod_ := im.injectionMethod_
    flowType_ := im.flowType_
    position_ := im.position_
    positionIsConstant_ := im.positionIsConstant_
    direction_ := im.direction_
    injectorCell_ := im.injectorCell_
    injectorTetFace_ := im.injectorTetFace_
    injectorTetPt_ := im.injectorTetPt_
    SOI_ := im.SOI_
    duration_ := im.duration_
    parcelsPerSecond_ := im.parcelsPerSecond_
    flowRateProfile_ := im.flowRateProfile_
    thetaInner_ := im.thetaInner_
    thetaOuter_ := im.thetaOuter_
    dInner_ := im.dInner_
    dOuter_ := im.dOuter_
    dInnerCylinder_ := im.dInnerCylinder_
    dOuterCylinder_ := im.dOuterCylinder_
    hCylinder_ := im.hCylinder_
    offsetCylinder_ := im.offsetCylinder_
    Umag_ := im.Umag_
    Cd_ := im.Cd_
    Pinj_ := im.Pinj_ }

/-- The `clone` member of the header: constructs a new model from the
current one via the copy constructor. -/
noncomputable def clone (m : Model) : Model := copyConstruct m

/-- A concrete configuration used to instantiate hypotheses on small
inputs (mirroring the example specification in the header). -/
noncomputable def baseModel : Model :=
  { injectionMethod_ := injectionMethod.imPoint
    flowType_ := flowType.ftConstantVelocity
    position_ := fun _ => ⟨-(3 / 20), -(1 / 10), 0⟩
    positionIsConstant_ := true
    direction_ := fun _ => ⟨1, 0, 0⟩
    injectorCell_ := 0
    injectorTetFace_ := 0
    injectorTetPt_ := 0
    SOI_ := 0
    duration_ := 1
    parcelsPerSecond_ := 1000
    flowRateProfile_ := fun _ => 1
    thetaInner_ := fun _ => 0
    thetaOuter_ := fun _ => 45
    dInner_ := 0
    dOuter_ := 1 / 20
    dInnerCylinder_ := 0
    dOuterCylinder_ := 1 / 20
    hCylinder_ := 1 / 20
    offsetCylinder_ := 0
    Umag_ := fun _ => 1
    Cd_ := fun _ => 4 / 5
    Pinj_ := fun _ => 2 }

/-- A mesh-location collaborator that always resolves to cell 0. -/
def hitMesh : MeshLocation := { locate := fun _ => some (0, 0, 0) }

/-- A mesh-location collaborator that never resolves. -/
def missMesh : MeshLocation := { locate := fun _ => none }

/-- The base configuration with the pressure-driven flow type selected. -/
noncomputable def pressModel : Model :=
  { baseModel with flowType_ := flowType.ftPressureDrivenVelocity }

/-- The base configuration with the flow-rate-and-discharge flow type and
the disc injection method selected. -/
noncomputable def flowModel : Model :=
  { baseModel with
    flowType_ := flowType.ftFlowRateAndDischarge
    injectionMethod_ := injectionMethod.imDisc }

/-- The base configuration with a non-normalized injector direction. -/
noncomputable def dirModel : Model :=
  { baseModel with direction_ := fun _ => ⟨0, 3, 4⟩ }

@[simp]
theorem Vec3.zero_x : (0 : Vec3).x = 0 := rfl

@[simp]
theorem Vec3.zero_y : (0 : Vec3).y = 0 := rfl

@[simp]
theorem Vec3.zero_z : (0 : Vec3).z = 0 := rfl

@[simp]
theorem Vec3.add_x (a b : Vec3) : (a + b).x = a.x + b.x := rfl

@[simp]
theorem Vec3.add_y (a b : Vec3) : (a + b).y = a.y + b.y := rfl

@[simp]
theorem Vec3.add_z (a b : Vec3) : (a + b).z = a.z + b.z := rfl

@[simp]
theorem Vec3.sub_x (a b : Vec3) : (a - b).x = a.x - b.x := rfl

@[simp]
theorem Vec3.sub_y (a b : Vec3) : (a - b).y = a.y - b.y := rfl

@[simp]
theorem Vec3.sub_z (a b : Vec3) : (a - b).z = a.z - b.z := rfl

@[simp]
theorem Vec3.smul_x (c : ℝ) (a : Vec3) : (c • a).x = c * a.x := rfl

@[simp]
theorem Vec3.smul_y (c : ℝ) (a : Vec3) : (c • a).y = c * a.y := rfl

@[simp]
theorem Vec3.smul_z (c : ℝ) (a : Vec3) : (c • a).z = c * a.z := rfl

theorem Vec3.dot_comm (a b : Vec3) : a.dot b = b.dot a := by
  simp only [Vec3.dot]; ring

theorem Vec3.dot_self_nonneg (v : Vec3) : 0 ≤ v.dot v := by
  simp only [Vec3.dot]
  nlinarith [mul_self_nonneg v.x, mul_self_nonneg v.y, mul_self_nonneg v.z]

theorem Vec3.dot_self_pos {v : Vec3} (hv : v ≠ 0) : 0 < v.dot v := by
  rcases lt_or_eq_of_le (Vec3.dot_self_nonneg v) with h | h
  · exact h
  · exfalso
    apply hv
    have hx : v.x * v.x = 0 := by
      refine le_antisymm ?_ (mul_self_nonneg _)
      simp only [Vec3.dot] at h
      nlinarith [mul_self_nonneg v.y, mul_self_nonneg v.z]
    have hy : v.y * v.y = 0 := by
      refine le_antisymm ?_ (mul_self_nonneg _)
      simp only [Vec3.dot] at h
      nlinarith [mul_self_nonneg v.x, mul_self_nonneg v.z]
    have hz : v.z * v.z = 0 := by
      refine le_antisymm ?_ (mul_self_nonneg _)
      simp only [Vec3.dot] at h
      nlinarith [mul_self_nonneg v.x, mul_self_nonneg v.y]
    ext
    · simpa [mul_self_eq_zero] using hx
    · simpa [mul_self_eq_zero] using hy
    · simpa [mul_self_eq_zero] using hz

theorem Vec3.smul_dot_smul (c d : ℝ) (a b : Vec3) :
    (c • a).dot (d • b) = c * d * a.dot b := by
  simp only [Vec3.dot, Vec3.smul_x, Vec3.smul_y, Vec3.smul_z]; ring

theorem Vec3.smul_dot (c : ℝ) (a b : Vec3) :
    (c • a).dot b = c * a.dot b := by
  simp only [Vec3.dot, Vec3.smul_x, Vec3.smul_y, Vec3.smul_z]; ring

theorem Vec3.dot_smul (c : ℝ) (a b : Vec3) :
    a.dot (c • b) = c * a.dot b := by
  simp only [Vec3.dot, Vec3.smul_x, Vec3.smul_y, Vec3.smul_z]; ring

theorem Vec3.self_dot_cross (a b : Vec3) : a.dot (a.cross b) = 0 := by
  simp only [Vec3.dot, Vec3.cross]; ring

theorem Vec3.right_dot_cross (a b : Vec3) : b.dot (a.cross b) = 0 := by
  simp only [Vec3.dot, Vec3.cross]; ring

theorem Vec3.cross_dot_cross (a b : Vec3) :
    (a.cross b).dot (a.cross b) = a.dot a * b.dot b - (a.dot b) ^ 2 := by
  simp only [Vec3.dot, Vec3.cross]; ring

theorem Vec3.add_sub_cancel_left' (a w : Vec3) : a + w - a = w := by
  ext <;> simp

theorem Vec3.add_add_sub_sub (a w v : Vec3) : a + w + v - a - v = w := by
  ext <;> simp <;> ring

theorem Vec3.normSq_expand2 (a b : ℝ) (p q : Vec3) :
    (a • p + b • q).dot (a • p + b • q) =
      a ^ 2 * p.dot p + b ^ 2 * q.dot q + 2 * (a * b) * p.dot q := by
  simp only [Vec3.dot, Vec3.add_x, Vec3.add_y, Vec3.add_z, Vec3.smul_x,
    Vec3.smul_y, Vec3.smul_z]
  ring

theorem Vec3.normSq_expand (c s a b : ℝ) (n p q : Vec3) :
    (c • n + s • (a • p + b • q)).dot (c • n + s • (a • p + b • q)) =
      c ^ 2 * n.dot n + s ^ 2 * a ^ 2 * p.dot p + s ^ 2 * b ^ 2 * q.dot q +
        2 * (c * s * a) * n.dot p + 2 * (c * s * b) * n.dot q +
        2 * (s ^ 2 * a * b) * p.dot q := by
  simp only [Vec3.dot, Vec3.add_x, Vec3.add_y, Vec3.add_z, Vec3.smul_x,
    Vec3.smul_y, Vec3.smul_z]
  ring

theorem Vec3.expand_dot_left (c s a b : ℝ) (n p q w : Vec3) :
    (c • n + s • (a • p + b • q)).dot w =
      c * n.dot w + s * a * p.dot w + s * b * q.dot w := by
  simp only [Vec3.dot, Vec3.add_x, Vec3.add_y, Vec3.add_z, Vec3.smul_x,
    Vec3.smul_y, Vec3.smul_z]
  ring

theorem Vec3.norm_nonneg (v : Vec3) : 0 ≤ Vec3.norm v :=
  Real.sqrt_nonneg _

theorem Vec3.norm_smul_of_unit {w : Vec3} (hw : w.dot w = 1) {r : ℝ}
    (hr : 0 ≤ r) : Vec3.norm (r • w) = r := by
  rw [Vec3.norm, Vec3.smul_dot_smul, hw, mul_one, ← sq, Real.sqrt_sq hr]

theorem normalize_dot_self {v : Vec3} (hv : v ≠ 0) :
    (normalize v).dot (normalize v) = 1 := by
  have hpos := Vec3.dot_self_pos hv
  have hsq : Real.sqrt (v.dot v) * Real.sqrt (v.dot v) = v.dot v :=
    Real.mul_self_sqrt hpos.le
  have hne : Real.sqrt (v.dot v) ≠ 0 := ne_of_gt (Real.sqrt_pos.mpr hpos)
  rw [normalize, Vec3.smul_dot_smul, Vec3.norm]
  field_simp

theorem normalize_ne_zero {v : Vec3} (hv : v ≠ 0) : normalize v ≠ 0 := by
  intro h
  have h1 := normalize_dot_self hv
  rw [h] at h1
  simp [Vec3.dot] at h1

theorem perpendicularRaw_dot (v : Vec3) : (perpendicularRaw v).dot v = 0 := by
  rw [perpendicularRaw]
  split
  next h =>
    obtain ⟨hx, _⟩ := h
    simp [Vec3.dot, hx]
  next h =>
    simp only [Vec3.dot]
    ring

theorem perpendicularRaw_ne_zero {v : Vec3} (_hv : v ≠ 0) :
    perpendicularRaw v ≠ 0 := by
  rw [perpendicularRaw]
  split
  next h =>
    intro hc
    have h1 := congrArg Vec3.x hc
    simp at h1
  next h =>
    intro hc
    apply h
    have h1 := congrArg Vec3.x hc
    have h2 := congrArg Vec3.y hc
    simp at h1 h2
    exact ⟨h2, h1⟩

theorem e1_dot_self {n : Vec3} (hn : n ≠ 0) : (e1 n).dot (e1 n) = 1 :=
  normalize_dot_self (perpendicularRaw_ne_zero hn)

theorem axis_dot_e1 (n : Vec3) : n.dot (e1 n) = 0 := by
  rw [e1, normalize, Vec3.dot_smul]
  have h : n.dot (perpendicularRaw n) = 0 := by
    rw [Vec3.dot_comm]; exact perpendicularRaw_dot n
  rw [h, mul_zero]

theorem axis_dot_e2 (n : Vec3) : n.dot (e2 n) = 0 := by
  rw [e2]; exact Vec3.self_dot_cross n (e1 n)

theorem e1_dot_e2 (n : Vec3) : (e1 n).dot (e2 n) = 0 := by
  rw [e2]; exact Vec3.right_dot_cross n (e1 n)

theorem e2_dot_self {n : Vec3} (hn : n ≠ 0) (hunit : n.dot n = 1) :
    (e2 n).dot (e2 n) = 1 := by
  rw [e2, Vec3.cross_dot_cross, hunit, e1_dot_self hn, axis_dot_e1]
  norm_num

theorem injectionAxis_dot_self {m : Model} {t : ℝ}
    (h : m.direction_ t ≠ 0) :
    (injectionAxis m t).dot (injectionAxis m t) = 1 := by
  rw [injectionAxis]; exact normalize_dot_self h

theorem injectionAxis_ne_zero {m : Model} {t : ℝ}
    (h : m.direction_ t ≠ 0) : injectionAxis m t ≠ 0 := by
  rw [injectionAxis]; exact normalize_ne_zero h

theorem tanVecAt_dot_self {m : Model} {t : ℝ} (h : m.direction_ t ≠ 0)
    (uphi : ℝ) : (tanVecAt m t uphi).dot (tanVecAt m t uphi) = 1 := by
  rw [tanVecAt, Vec3.normSq_expand2, e1_dot_self (injectionAxis_ne_zero h),
    e2_dot_self (injectionAxis_ne_zero h) (injectionAxis_dot_self h),
    e1_dot_e2]
  linear_combination Real.sin_sq_add_cos_sq (2 * Real.pi * uphi)

theorem sampleDirection_dot_axis {m : Model} {t : ℝ}
    (h : m.direction_ t ≠ 0) (uphi utheta : ℝ) :
    (sampleDirection m t uphi utheta).dot (injectionAxis m t) =
      Real.cos (coneAngleAt m t utheta) := by
  rw [sampleDirection, tanVecAt, Vec3.expand_dot_left,
    injectionAxis_dot_self h]
  have h1 : (e1 (injectionAxis m t)).dot (injectionAxis m t) = 0 := by
    rw [Vec3.dot_comm]; exact axis_dot_e1 _
  have h2 : (e2 (injectionAxis m t)).dot (injectionAxis m t) = 0 := by
    rw [Vec3.dot_comm]; exact axis_dot_e2 _
  rw [h1, h2]; ring

theorem sampleDirection_dot_self {m : Model} {t : ℝ}
    (h : m.direction_ t ≠ 0) (uphi utheta : ℝ) :
    (sampleDirection m t uphi utheta).dot (sampleDirection m t uphi utheta) =
      1 := by
  rw [sampleDirection, tanVecAt, Vec3.normSq_expand,
    injectionAxis_dot_self h, e1_dot_self (injectionAxis_ne_zero h),
    e2_dot_self (injectionAxis_ne_zero h) (injectionAxis_dot_self h),
    axis_dot_e1, axis_dot_e2, e1_dot_e2]
  linear_combination
    (Real.sin (coneAngleAt m t utheta)) ^ 2 *
        Real.sin_sq_add_cos_sq (2 * Real.pi * uphi) +
      Real.sin_sq_add_cos_sq (coneAngleAt m t utheta)

theorem sampleCosTheta_bounds {tIn tOut u : ℝ} (h0 : 0 ≤ tIn)
    (hpi : tOut ≤ Real.pi) (hio : tIn ≤ tOut) (hu0 : 0 ≤ u) (hu1 : u ≤ 1) :
    Real.cos tOut ≤ sampleCosTheta tIn tOut u ∧
      sampleCosTheta tIn tOut u ≤ Real.cos tIn := by
  have hcc : Real.cos tOut ≤ Real.cos tIn :=
    Real.cos_le_cos_of_nonneg_of_le_pi h0 hpi hio
  constructor
  · rw [sampleCosTheta]; nlinarith
  · rw [sampleCosTheta]; nlinarith

theorem sampleConeAngle_mem {tIn tOut u : ℝ} (h0 : 0 ≤ tIn)
    (hpi : tOut ≤ Real.pi) (hio : tIn ≤ tOut) (hu0 : 0 ≤ u) (hu1 : u ≤ 1) :
    tIn ≤ sampleConeAngle tIn tOut u ∧ sampleConeAngle tIn tOut u ≤ tOut ∧
      Real.cos (sampleConeAngle tIn tOut u) = sampleCosTheta tIn tOut u := by
  have h0o : 0 ≤ tOut := h0.trans hio
  have hpii : tIn ≤ Real.pi := hio.trans hpi
  obtain ⟨hlo, hhi⟩ := sampleCosTheta_bounds h0 hpi hio hu0 hu1
  have hm1 : -1 ≤ sampleCosTheta tIn tOut u :=
    le_trans (Real.neg_one_le_cos tOut) hlo
  have hp1 : sampleCosTheta tIn tOut u ≤ 1 :=
    le_trans hhi (Real.cos_le_one tIn)
  refine ⟨?_, ?_, ?_⟩
  · calc tIn = Real.arccos (Real.cos tIn) := (Real.arccos_cos h0 hpii).symm
    _ ≤ Real.arccos (sampleCosTheta tIn tOut u) := by
        rw [Real.arccos_eq_pi_div_two_sub_arcsin,
          Real.arccos_eq_pi_div_two_sub_arcsin]
        have := Real.monotone_arcsin hhi
        linarith
  · calc sampleConeAngle tIn tOut u =
        Real.arccos (sampleCosTheta tIn tOut u) := rfl
    _ ≤ Real.arccos (Real.cos tOut) := by
        rw [Real.arccos_eq_pi_div_two_sub_arcsin,
          Real.arccos_eq_pi_div_two_sub_arcsin]
        have := Real.monotone_arcsin hlo
        linarith
    _ = tOut := Real.arccos_cos h0o hpi
  · exact Real.cos_arccos hm1 hp1

theorem sampleConeAngle_collapse {tIn u : ℝ} (h0 : 0 ≤ tIn)
    (hpi : tIn ≤ Real.pi) : sampleConeAngle tIn tIn u = tIn := by
  have h : sampleCosTheta tIn tIn u = Real.cos tIn := by
    rw [sampleCosTheta]; ring
  rw [sampleConeAngle, h, Real.arccos_cos h0 hpi]

theorem discRadius_nonneg (rI rO u : ℝ) : 0 ≤ discRadius rI rO u := by
  rw [discRadius]; exact Real.sqrt_nonneg _

theorem discRadius_mem {rI rO u : ℝ} (h0 : 0 ≤ rI) (hio : rI ≤ rO)
    (hu0 : 0 ≤ u) (hu1 : u ≤ 1) :
    rI ≤ discRadius rI rO u ∧ discRadius rI rO u ≤ rO := by
  have hsq : rI ^ 2 ≤ rO ^ 2 := by nlinarith
  have hu' : 0 ≤ u * (rO ^ 2 - rI ^ 2) := mul_nonneg hu0 (by linarith)
  have hu'' : 0 ≤ (1 - u) * (rO ^ 2 - rI ^ 2) :=
    mul_nonneg (by linarith) (by linarith)
  have hlo : rI ^ 2 ≤ rI ^ 2 + u * (rO ^ 2 - rI ^ 2) := by linarith
  have hhi : rI ^ 2 + u * (rO ^ 2 - rI ^ 2) ≤ rO ^ 2 := by nlinarith
  constructor
  · have h1 : Real.sqrt (rI ^ 2) ≤
        Real.sqrt (rI ^ 2 + u * (rO ^ 2 - rI ^ 2)) := Real.sqrt_le_sqrt hlo
    rw [Real.sqrt_sq h0] at h1
    rw [discRadius]
    exact h1
  · have h2 : Real.sqrt (rI ^ 2 + u * (rO ^ 2 - rI ^ 2)) ≤
        Real.sqrt (rO ^ 2) := Real.sqrt_le_sqrt hhi
    rw [Real.sqrt_sq (h0.trans hio)] at h2
    rw [discRadius]
    exact h2

theorem discRadius_collapse (rI u : ℝ) (h0 : 0 ≤ rI) :
    discRadius rI rI u = rI := by
  have h : rI ^ 2 + u * (rI ^ 2 - rI ^ 2) = rI ^ 2 := by ring
  rw [discRadius, h, Real.sqrt_sq h0]

theorem samplePosition_point {m : Model}
    (h : m.injectionMethod_ = injectionMethod.imPoint) (t u1 u2 u3 : ℝ) :
    samplePosition m t u1 u2 u3 = m.position_ t := by
  rw [samplePosition, h]

theorem samplePosition_disc {m : Model}
    (h : m.injectionMethod_ = injectionMethod.imDisc) (t u1 u2 u3 : ℝ) :
    samplePosition m t u1 u2 u3 =
      m.position_ t +
        discRadius (m.dInner_ / 2) (m.dOuter_ / 2) u2 • tanVecAt m t u1 := by
  rw [samplePosition, h]

theorem samplePosition_cylinder {m : Model}
    (h : m.injectionMethod_ = injectionMethod.imCylinder) (t u1 u2 u3 : ℝ) :
    samplePosition m t u1 u2 u3 =
      m.position_ t +
        discRadius (m.dInnerCylinder_ / 2) (m.dOuterCylinder_ / 2) u2 •
          tanVecAt m t u1 +
        (m.offsetCylinder_ + u3 * m.hCylinder_) • injectionAxis m t := by
  rw [samplePosition, h]

theorem setPositionAndCell_position (m : Model) (mesh : MeshLocation)
    (t u1 u2 u3 : ℝ) :
    (setPositionAndCell m mesh t u1 u2 u3).position =
      samplePosition m t u1 u2 u3 := by
  simp only [setPositionAndCell]
  cases hm : mesh.locate (samplePosition m t u1 u2 u3) with
  | none => rfl
  | some a =>
    obtain ⟨c, f, p⟩ := a
    rfl

theorem overlapDuration_zero {m : Model} {t0 t1 : ℝ}
    (h : t1 ≤ m.SOI_ ∨ m.SOI_ + m.duration_ ≤ t0) :
    overlapDuration m t0 t1 = 0 := by
  rw [overlapDuration, max_eq_left]
  rcases h with h | h
  · have h1 : min t1 (m.SOI_ + m.duration_) ≤ t1 := min_le_left _ _
    have h2 : m.SOI_ ≤ max t0 m.SOI_ := le_max_right _ _
    linarith
  · have h1 : min t1 (m.SOI_ + m.duration_) ≤ m.SOI_ + m.duration_ :=
      min_le_right _ _
    have h2 : t0 ≤ max t0 m.SOI_ := le_max_left _ _
    linarith

theorem overlapDuration_mono {m : Model} {t0 t1 t1' : ℝ} (h : t1 ≤ t1') :
    overlapDuration m t0 t1 ≤ overlapDuration m t0 t1' := by
  rw [overlapDuration, overlapDuration]
  apply max_le_max le_rfl
  apply sub_le_sub_right
  exact min_le_min h le_rfl

theorem baseModel_dir_ne (t : ℝ) : baseModel.direction_ t ≠ 0 := by
  intro h
  have hx := congrArg Vec3.x h
  norm_num [baseModel] at hx

theorem dirModel_dir_ne (t : ℝ) : dirModel.direction_ t ≠ 0 := by
  intro h
  have hy := congrArg Vec3.y h
  norm_num [dirModel, baseModel] at hy

theorem baseModel_thetaInner (t : ℝ) : thetaInnerRad baseModel t = 0 := by
  rw [thetaInnerRad, degToRad]
  norm_num [baseModel]

theorem baseModel_thetaOuter (t : ℝ) :
    thetaOuterRad baseModel t = Real.pi / 4 := by
  rw [thetaOuterRad, degToRad]
  norm_num [baseModel]
  ring

/-- C1: for every injection time and pair of uniform draws, the sampled
direction makes an angle with the normalized injector axis that equals
the sampled cone angle, which lies between the inner and outer half-cone
angles whenever the inner one does not exceed the outer one (angles taken
in the physical half-cone range up to pi); the cosine of that angle is the
uniform interpolation between the cosine of the outer and of the inner
angle (uniform per unit solid angle, not uniform in the angle itself), and
equal inner and outer angles put every sample exactly on that cone
surface. -/
theorem coneAngle_sampling (m : Model) (t uphi u : ℝ)
    (hdir : m.direction_ t ≠ 0)
    (h0 : 0 ≤ thetaInnerRad m t)
    (hpi : thetaOuterRad m t ≤ Real.pi)
    (hio : thetaInnerRad m t ≤ thetaOuterRad m t)
    (hu0 : 0 ≤ u) (hu1 : u ≤ 1) :
    Real.arccos ((sampleDirection m t uphi u).dot (injectionAxis m t)) =
        coneAngleAt m t u
    ∧ thetaInnerRad m t ≤ coneAngleAt m t u
    ∧ coneAngleAt m t u ≤ thetaOuterRad m t
    ∧ Real.cos (coneAngleAt m t u) =
        Real.cos (thetaOuterRad m t) +
          u * (Real.cos (thetaInnerRad m t) - Real.cos (thetaOuterRad m t))
    ∧ (thetaInnerRad m t = thetaOuterRad m t →
        coneAngleAt m t u = thetaInnerRad m t) := by
  obtain ⟨hlo, hhi, hcos⟩ := sampleConeAngle_mem h0 hpi hio hu0 hu1
  have hnn : 0 ≤ coneAngleAt m t u := by
    rw [coneAngleAt, sampleConeAngle]
    exact Real.arccos_nonneg _
  have hle : coneAngleAt m t u ≤ Real.pi := by
    rw [coneAngleAt, sampleConeAngle]
    exact Real.arccos_le_pi _
  refine ⟨?_, ?_, ?_, ?_, ?_⟩
  · rw [sampleDirection_dot_axis hdir]
    exact Real.arccos_cos hnn hle
  · rw [coneAngleAt]; exact hlo
  · rw [coneAngleAt]; exact hhi
  · rw [coneAngleAt]
    rw [hcos, sampleCosTheta]
  · intro he
    rw [coneAngleAt, he]
    exact sampleConeAngle_collapse (by rw [← he]; exact h0) hpi

/-- Witness for C1: the base configuration (inner angle 0, outer angle 45
degrees, injection at time 0, draws 0) satisfies every hypothesis and the
sampled cone angle lies between the two half-cone angles. -/
theorem coneAngle_sampling_witness :
    baseModel.direction_ 0 ≠ 0 ∧
      thetaInnerRad baseModel 0 ≤ coneAngleAt baseModel 0 0 ∧
      coneAngleAt baseModel 0 0 ≤ thetaOuterRad baseModel 0 := by
  have hdir := baseModel_dir_ne 0
  have h0 : 0 ≤ thetaInnerRad baseModel 0 := by
    rw [baseModel_thetaInner]
  have hpi : thetaOuterRad baseModel 0 ≤ Real.pi := by
    rw [baseModel_thetaOuter]
    linarith [Real.pi_pos]
  have hio : thetaInnerRad baseModel 0 ≤ thetaOuterRad baseModel 0 := by
    rw [baseModel_thetaInner, baseModel_thetaOuter]
    linarith [Real.pi_pos]
  obtain ⟨-, h1, h2, -, -⟩ :=
    coneAngle_sampling baseModel 0 0 0 hdir h0 hpi hio le_rfl zero_le_one
  exact ⟨hdir, h1, h2⟩

/-- C9: for every injection method, time and random draws, the sampled
direction is a unit vector, even when the configured injector direction
is not pre-normalized: the sampler normalizes the axis and tilts it
within an orthonormal basis, which preserves the norm. -/
theorem sampleDirection_unit (m : Model) (t uphi utheta : ℝ)
    (hdir : m.direction_ t ≠ 0) :
    Vec3.norm (sampleDirection m t uphi utheta) = 1 := by
  rw [Vec3.norm, sampleDirection_dot_self hdir, Real.sqrt_one]

/-- Witness for C9: with the non-normalized direction of norm 5 the
sampled direction still has norm 1. -/
theorem sampleDirection_unit_witness :
    dirModel.direction_ 0 ≠ 0 ∧
      Vec3.norm (sampleDirection dirModel 0 0 0) = 1 :=
  ⟨dirModel_dir_ne 0, sampleDirection_unit dirModel 0 0 0 (dirModel_dir_ne 0)⟩

/-- C2: for the disc and cylinder injection methods the radial offset
magnitude of the sampled position is exactly the annulus radius drawn
uniformly per unit area from the respective inner and outer radii (half
the configured diameters); that radius always lies between the inner and
the outer radius, and equal inner and outer diameters collapse the draw to
the fixed circle of half that diameter. -/
theorem radialOffset_sampling (m : Model) (t u1 u2 u3 : ℝ)
    (hdir : m.direction_ t ≠ 0) (hu0 : 0 ≤ u2) (hu1 : u2 ≤ 1)
    (hd0 : 0 ≤ m.dInner_) (hdio : m.dInner_ ≤ m.dOuter_)
    (hc0 : 0 ≤ m.dInnerCylinder_)
    (hcio : m.dInnerCylinder_ ≤ m.dOuterCylinder_) :
    (m.injectionMethod_ = injectionMethod.imDisc →
      Vec3.norm (samplePosition m t u1 u2 u3 - m.position_ t) =
        discRadius (m.dInner_ / 2) (m.dOuter_ / 2) u2)
    ∧ (m.injectionMethod_ = injectionMethod.imCylinder →
      Vec3.norm (samplePosition m t u1 u2 u3 - m.position_ t -
          (m.offsetCylinder_ + u3 * m.hCylinder_) • injectionAxis m t) =
        discRadius (m.dInnerCylinder_ / 2) (m.dOuterCylinder_ / 2) u2)
    ∧ discRadius (m.dInner_ / 2) (m.dOuter_ / 2) u2 =
        Real.sqrt ((m.dInner_ / 2) ^ 2 +
          u2 * ((m.dOuter_ / 2) ^ 2 - (m.dInner_ / 2) ^ 2))
    ∧ m.dInner_ / 2 ≤ discRadius (m.dInner_ / 2) (m.dOuter_ / 2) u2
    ∧ discRadius (m.dInner_ / 2) (m.dOuter_ / 2) u2 ≤ m.dOuter_ / 2
    ∧ m.dInnerCylinder_ / 2 ≤
        discRadius (m.dInnerCylinder_ / 2) (m.dOuterCylinder_ / 2) u2
    ∧ discRadius (m.dInnerCylinder_ / 2) (m.dOuterCylinder_ / 2) u2 ≤
        m.dOuterCylinder_ / 2
    ∧ (m.dInner_ = m.dOuter_ →
        discRadius (m.dInner_ / 2) (m.dOuter_ / 2) u2 = m.dInner_ / 2) := by
  obtain ⟨hdm1, hdm2⟩ :=
    discRadius_mem (u := u2) (by linarith : (0:ℝ) ≤ m.dInner_ / 2)
      (by linarith : m.dInner_ / 2 ≤ m.dOuter_ / 2) hu0 hu1
  obtain ⟨hcm1, hcm2⟩ :=
    discRadius_mem (u := u2) (by linarith : (0:ℝ) ≤ m.dInnerCylinder_ / 2)
      (by linarith : m.dInnerCylinder_ / 2 ≤ m.dOuterCylinder_ / 2) hu0 hu1
  refine ⟨?_, ?_, by rw [discRadius], hdm1, hdm2, hcm1, hcm2, ?_⟩
  · intro h
    rw [samplePosition_disc h, Vec3.add_sub_cancel_left',
      Vec3.norm_smul_of_unit (tanVecAt_dot_self hdir u1)
        (discRadius_nonneg _ _ _)]
  · intro h
    rw [samplePosition_cylinder h, Vec3.add_add_sub_sub,
      Vec3.norm_smul_of_unit (tanVecAt_dot_self hdir u1)
        (discRadius_nonneg _ _ _)]
  · intro h
    rw [h]
    exact discRadius_collapse _ _ (by linarith)

/-- Witness for C2: the base configuration (inner diameter 0, outer
diameter one twentieth) at the radial draw one half satisfies every
hypothesis, and the drawn radius lies in the annulus. -/
theorem radialOffset_sampling_witness :
    baseModel.direction_ 0 ≠ 0 ∧ (0:ℝ) ≤ 1 / 2 ∧ (1:ℝ) / 2 ≤ 1 ∧
      baseModel.dInner_ / 2 ≤
        discRadius (baseModel.dInner_ / 2) (baseModel.dOuter_ / 2) (1 / 2) ∧
      discRadius (baseModel.dInner_ / 2) (baseModel.dOuter_ / 2) (1 / 2) ≤
        baseModel.dOuter_ / 2 := by
  have hdir := baseModel_dir_ne 0
  obtain ⟨-, -, -, h1, h2, -, -, -⟩ :=
    radialOffset_sampling baseModel 0 0 (1 / 2) 0 hdir (by norm_num)
      (by norm_num) (by norm_num [baseModel]) (by norm_num [baseModel])
      (by norm_num [baseModel]) (by norm_num [baseModel])
  exact ⟨hdir, by norm_num, by norm_num, h1, h2⟩

/-- C3: under the pressure-driven flow type the injection speed equals the
square root of the clamped radicand, it is exactly zero whenever the
injection pressure does not exceed the local pressure, and it is always a
well-defined non-negative real number (the clamp is what rules out a NaN
in the floating-point realization). -/
theorem pressureDriven_speed (m : Model) (t p rho A mdot : ℝ)
    (hft : m.flowType_ = flowType.ftPressureDrivenVelocity)
    (hrho : 0 < rho) :
    injectionSpeed m t p rho A mdot =
        Real.sqrt (max 0 (2 * (m.Pinj_ t - p) / rho))
    ∧ (m.Pinj_ t ≤ p → injectionSpeed m t p rho A mdot = 0)
    ∧ 0 ≤ injectionSpeed m t p rho A mdot := by
  have hspeed : injectionSpeed m t p rho A mdot =
      pressureDrivenSpeed m t p rho := by
    rw [injectionSpeed, hft]
  refine ⟨by rw [hspeed, pressureDrivenSpeed], ?_, ?_⟩
  · intro hp
    rw [hspeed, pressureDrivenSpeed]
    have hnp : 2 * (m.Pinj_ t - p) / rho ≤ 0 :=
      div_nonpos_of_nonpos_of_nonneg (by linarith) (by linarith)
    rw [max_eq_left hnp, Real.sqrt_zero]
  · rw [hspeed, pressureDrivenSpeed]
    exact Real.sqrt_nonneg _

/-- Witness for C3: with injection pressure 2, local pressure 0 and
density 1 the speed is exactly 2, matching the numeric example of the
specification. -/
theorem pressureDriven_speed_witness :
    pressModel.flowType_ = flowType.ftPressureDrivenVelocity ∧
      (0:ℝ) < 1 ∧ injectionSpeed pressModel 0 0 1 1 1 = 2 := by
  have h := (pressureDriven_speed pressModel 0 0 1 1 1 rfl one_pos).1
  refine ⟨rfl, one_pos, ?_⟩
  rw [h]
  have h4 : max 0 (2 * (pressModel.Pinj_ 0 - 0) / 1) = 4 := by
    norm_num [pressModel, baseModel]
  rw [h4, show (4:ℝ) = 2 ^ 2 by norm_num, Real.sqrt_sq (by norm_num)]

/-- C4: under the flow-rate-and-discharge flow type the injection speed
equals the mass flow rate divided by density times area times discharge
coefficient, and a non-positive cross-sectional area is rejected by the
one-time setup check (the per-sample speed function itself is total and
never raises). -/
theorem flowRateDischarge_speed (m : Model) (t p rho A mdot : ℝ)
    (hft : m.flowType_ = flowType.ftFlowRateAndDischarge)
    (_hrho : 0 < rho) (hA : 0 < A) (_hCd : 0 < m.Cd_ t) :
    injectionSpeed m t p rho A mdot = mdot / (rho * A * m.Cd_ t)
    ∧ checkFlowArea A = Except.ok ()
    ∧ (∀ B : ℝ,
        checkFlowArea B = Except.error configError.nonPositiveArea ↔
          B ≤ 0) := by
  refine ⟨?_, ?_, ?_⟩
  · rw [injectionSpeed, hft, flowRateDischargeSpeed]
  · rw [checkFlowArea, if_pos hA]
  · intro B
    rw [checkFlowArea]
    split
    next hB =>
      simp only [reduceCtorEq, false_iff, not_le]
      exact hB
    next hB =>
      simp only [Except.error.injEq, true_iff]
      exact le_of_not_lt hB

/-- Witness for C4: with mass flow rate 1, density 1, area one half and
discharge coefficient four fifths the speed is exactly five halves,
matching the numeric example of the specification. -/
theorem flowRateDischarge_speed_witness :
    flowModel.flowType_ = flowType.ftFlowRateAndDischarge ∧
      (0:ℝ) < 1 ∧ (0:ℝ) < 1 / 2 ∧ 0 < flowModel.Cd_ 0 ∧
      injectionSpeed flowModel 0 0 1 (1 / 2) 1 = 5 / 2 := by
  have hCd : 0 < flowModel.Cd_ 0 := by norm_num [flowModel, baseModel]
  have h := (flowRateDischarge_speed flowModel 0 0 1 (1 / 2) 1 rfl one_pos
    (by norm_num) hCd).1
  refine ⟨rfl, one_pos, by norm_num, hCd, ?_⟩
  rw [h]
  norm_num [flowModel, baseModel]

/-- C5: under the point injection method the position handed back by
`setPositionAndCell` is exactly the injector position evaluated at the
injection time, with zero radial or axial offset. -/
theorem point_position (m : Model) (mesh : MeshLocation) (t u1 u2 u3 : ℝ)
    (h : m.injectionMethod_ = injectionMethod.imPoint) :
    (setPositionAndCell m mesh t u1 u2 u3).position = m.position_ t
    ∧ samplePosition m t u1 u2 u3 - m.position_ t = 0 := by
  have hp : samplePosition m t u1 u2 u3 = m.position_ t :=
    samplePosition_point h t u1 u2 u3
  constructor
  · rw [setPositionAndCell_position, hp]
  · rw [hp]
    ext <;> simp

/-- Witness for C5: the base configuration injects at a point and the
sampled position is the injector position. -/
theorem point_position_witness :
    baseModel.injectionMethod_ = injectionMethod.imPoint ∧
      (setPositionAndCell baseModel hitMesh 0 0 0 0).position =
        baseModel.position_ 0 :=
  ⟨rfl, (point_position baseModel hitMesh 0 0 0 0 rfl).1⟩

/-- C6: the number of parcels to inject is zero for any scheduling window
entirely outside the active injection window, is monotone non-decreasing
in the window end, and is computed from the parcels-per-second rate and
the overlap of the window with the active window. -/
theorem parcelsToInject_window_mono (m : Model) (t0 t1 t1' : ℝ)
    (h1 : t1 ≤ t1') :
    parcelsToInject m t0 t1 ≤ parcelsToInject m t0 t1'
    ∧ (t1 ≤ m.SOI_ ∨ m.SOI_ + m.duration_ ≤ t0 →
        parcelsToInject m t0 t1 = 0)
    ∧ parcelsToInject m t0 t1 =
        ⌊(m.parcelsPerSecond_ : ℝ) * overlapDuration m t0 t1⌋ := by
  refine ⟨?_, ?_, rfl⟩
  · apply Int.floor_mono
    exact mul_le_mul_of_nonneg_left (overlapDuration_mono h1)
      (Nat.cast_nonneg _)
  · intro h
    rw [parcelsToInject, overlapDuration_zero h, mul_zero, Int.floor_zero]

/-- Witness for C6: for the base configuration (start of injection 0,
duration 1) the window from 42 to 43 lies entirely after the active
window, so the count is zero and monotone in the window end. -/
theorem parcelsToInject_window_mono_witness :
    (42:ℝ) ≤ 43 ∧
      parcelsToInject baseModel 42 42 ≤ parcelsToInject baseModel 42 43 ∧
      parcelsToInject baseModel 42 42 = 0 := by
  obtain ⟨hm, hz, -⟩ :=
    parcelsToInject_window_mono baseModel 42 42 43 (by norm_num)
  refine ⟨by norm_num, hm, hz (Or.inr ?_)⟩
  norm_num [baseModel]

/-- C7: a parcel is reported invalid by `validInjection` exactly when its
most recent geometry sample failed mesh resolution; the miss is recorded
in the sample instead of raising an error. -/
theorem validInjection_iff_resolved (m : Model) (mesh : MeshLocation)
    (t u1 u2 u3 : ℝ) :
    validInjection (setPositionAndCell m mesh t u1 u2 u3) = false ↔
      mesh.locate (samplePosition m t u1 u2 u3) = none := by
  simp only [setPositionAndCell]
  cases hm : mesh.locate (samplePosition m t u1 u2 u3) with
  | none => simp [validInjection]
  | some a =>
    obtain ⟨c, f, p⟩ := a
    simp [validInjection, Int.natCast_nonneg]

/-- C8: the generation of a batch of parcels is a pure function of the
configuration, the context and the random stream: two runs whose streams
agree on the draws consumed for the requested parcel indices produce
identical sequences of (position, direction, speed, diameter); in
particular identical seeds give bit-identical runs. -/
theorem runInjection_reproducible (m : Model) (dist : ℝ → ℝ)
    (p rho A mdot : ℝ) (s1 s2 : ℕ → ℝ) (parcels : List (ℕ × ℝ))
    (h : ∀ q ∈ parcels, ∀ k, k < 5 → s1 (5 * q.1 + k) = s2 (5 * q.1 + k)) :
    runInjection m dist p rho A mdot s1 parcels =
      runInjection m dist p rho A mdot s2 parcels := by
  rw [runInjection, runInjection]
  apply List.map_congr_left
  intro q hq
  have h0 : s1 (5 * q.1) = s2 (5 * q.1) := by
    have := h q hq 0 (by norm_num)
    simpa using this
  have h1 := h q hq 1 (by norm_num)
  have h2 := h q hq 2 (by norm_num)
  have h3 := h q hq 3 (by norm_num)
  have h4 := h q hq 4 (by norm_num)
  rw [generateParcel, generateParcel, h0, h1, h2, h3, h4]

/-- Witness for C8: two literally equal streams agree on all consumed
draws, and one-parcel runs coincide. -/
theorem runInjection_reproducible_witness :
    (∀ q ∈ ([(0, 0)] : List (ℕ × ℝ)), ∀ k, k < 5 →
        (fun _ : ℕ => (0:ℝ)) (5 * q.1 + k) =
          (fun _ : ℕ => (0:ℝ)) (5 * q.1 + k)) ∧
      runInjection baseModel (fun x => x) 0 1 1 1 (fun _ => 0) [(0, 0)] =
        runInjection baseModel (fun x => x) 0 1 1 1 (fun _ => 0) [(0, 0)] :=
  ⟨fun _ _ _ _ => rfl,
    runInjection_reproducible baseModel (fun x => x) 0 1 1 1
      (fun _ => 0) (fun _ => 0) [(0, 0)] (fun _ _ _ _ => rfl)⟩

/-- C10: `clone` builds a new model via the copy constructor, so the clone
equals the original in every observable field (injection method, flow
type, geometry parameters, time functions, cached mesh address), and
cloning leaves the original untouched (the model is a value; `clone` reads
it only). -/
theorem clone_copies (m : Model) :
    clone m = m
    ∧ (clone m).injectionMethod_ = m.injectionMethod_
    ∧ (clone m).flowType_ = m.flowType_
    ∧ (clone m).position_ = m.position_
    ∧ (clone m).direction_ = m.direction_
    ∧ (clone m).thetaInner_ = m.thetaInner_
    ∧ (clone m).thetaOuter_ = m.thetaOuter_
    ∧ (clone m).dInner_ = m.dInner_
    ∧ (clone m).dOuter_ = m.dOuter_
    ∧ (clone m).injectorCell_ = m.injectorCell_
    ∧ (clone m).injectorTetFace_ = m.injectorTetFace_
    ∧ (clone m).injectorTetPt_ = m.injectorTetPt_ :=
  ⟨rfl, rfl, rfl, rfl, rfl, rfl, rfl, rfl, rfl, rfl, rfl, rfl⟩

end ConeCylinderInjection
